import Mathlib

/-!
Verification development for the RSLint core slice: the unary/update expression
subparser (`rslint-parse/src/parser/subparsers/expr/unary_expr.rs`) and the
`no-extra-semi` lint rule (`rslint_core/src/groups/errors/no_extra_semi.rs`).

The token source (lexer), the left-hand-side subparser and the assignment-target
predicate are external to the repository slice; they are modelled from the
specification (each such definition says so in its doc comment).  Machine
integers do not occur: all offsets are byte indices, modelled as `Nat`.
-/

namespace RSLint

/-- Half-open byte-offset range into the source buffer (`span::Span`).
The Rust field `end` is a Lean keyword, so it is called `stop` here. -/
structure Span where
  start : Nat
  stop : Nat
deriving DecidableEq, Repr

/-- `lexer::token::BinToken` (only the members used by the unary subparser). -/
inductive BinToken
  | Add
  | Subtract
deriving DecidableEq, Repr

/-- `lexer::token::TokenType`, restricted to the members the unary/update
subparser inspects, plus the literal kinds produced by the primary parser. -/
inductive TokenType
  | Increment
  | Decrement
  | Delete
  | Void
  | Typeof
  | BinOp (b : BinToken)
  | BitwiseNot
  | LogicalNot
  | Whitespace
  | Linebreak
  | Ident
  | Number
  | TrueTok
  | FalseTok
  | EOF
deriving DecidableEq, Repr

/-- Mirrors the Rust `Debug` formatting used by `format!("{:?}", t)` in the
diagnostic messages. -/
def TokenType.debugStr : TokenType → String
  | .Increment => "Increment"
  | .Decrement => "Decrement"
  | .Delete => "Delete"
  | .Void => "Void"
  | .Typeof => "Typeof"
  | .BinOp .Add => "BinOp(Add)"
  | .BinOp .Subtract => "BinOp(Subtract)"
  | .BitwiseNot => "BitwiseNot"
  | .LogicalNot => "LogicalNot"
  | .Whitespace => "Whitespace"
  | .Linebreak => "Linebreak"
  | .Ident => "Ident"
  | .Number => "Number"
  | .TrueTok => "True"
  | .FalseTok => "False"
  | .EOF => "EOF"

/-- A token as surfaced by the token source: kind plus its lexeme span. -/
structure Token where
  tokenType : TokenType
  lexeme : Span
deriving DecidableEq, Repr

/-- Modelled from the spec: one raw item of the pull-based token stream.  The
stream either produces a token or fails (the "Lexical/Structural failure" case
of the error taxonomy, a malformed token the lexer cannot produce). -/
inductive RawItem
  | tok (t : Token)
  | lexErr
deriving DecidableEq, Repr

/-- `parser::error::ParseDiagnosticType` members used here.  `RecursionLimit`
stands for the fuel exhaustion of the Lean embedding of the (unbounded)
recursion, and `LexerError` for the lexical-failure diagnostic produced by the
modelled token source. -/
inductive ParseDiagnosticType
  | InvalidTargetExpression
  | IdentifierDeletion
  | ExpectedExpression
  | LexerError
  | RecursionLimit
deriving DecidableEq, Repr

/-- One labelled range of a diagnostic. -/
structure Label where
  span : Span
  msg : String
deriving DecidableEq, Repr

/-- A structured parser diagnostic: kind, message, primary/secondary labels,
optional help text (`diagnostic::ParserDiagnostic` as built by
`self.error(..).secondary(..).primary(..).help(..)`). -/
structure ParserDiagnostic where
  kind : ParseDiagnosticType
  message : String
  primary : Option Label
  secondary : List Label
  help : Option String
deriving DecidableEq, Repr

/-- Whitespace attachment of a token-bearing node
(`parser::cst::expr::LiteralWhitespace`). -/
structure LiteralWhitespace where
  before : Span
  after : Span
deriving DecidableEq, Repr

/-- Span plus whitespace of a leaf literal/identifier node
(`parser::cst::expr::LiteralExpr`). -/
structure LiteralExpr where
  span : Span
  whitespace : LiteralWhitespace
deriving DecidableEq, Repr

/-- The expression CST (`parser::cst::expr::Expr`), restricted to the variants
the unary subparser and the modelled primary parser produce.  `UpdateExpr` and
`UnaryExpr` are flattened into their constructors; the Rust `prefix` field is
called `prefixFlag`. -/
inductive Expr
  | Identifier (d : LiteralExpr)
  | Number (d : LiteralExpr)
  | TrueLit (d : LiteralExpr)
  | FalseLit (d : LiteralExpr)
  | Update (span : Span) (prefixFlag : Bool) (object : Expr) (op : TokenType)
      (whitespace : LiteralWhitespace)
  | Unary (span : Span) (object : Expr) (op : TokenType)
      (whitespace : LiteralWhitespace)
deriving DecidableEq, Repr

/-- `Expr::span()`. -/
def Expr.span : Expr → Span
  | .Identifier d | .Number d | .TrueLit d | .FalseLit d => d.span
  | .Update sp _ _ _ _ => sp
  | .Unary sp _ _ _ => sp

/-- Is this node an `Update` expression? -/
def Expr.isUpdate : Expr → Bool
  | .Update _ _ _ _ _ => true
  | _ => false

/-- Modelled from the spec (§4.2 Assignment-Target Predicate): a pure, total
predicate on expression nodes; identifiers (and member-access forms, which the
slice does not produce) are valid targets, literals and unary/update results
are not.  In the source it is `Expr::is_valid_assign_target(&self, p: &Parser)`;
the parser argument is only consulted for cases outside this slice, so the
model takes the expression alone. -/
def is_valid_assign_target : Expr → Bool
  | .Identifier _ => true
  | _ => false

/-- The parser state threaded through the subparsers (`parser::Parser`): the
current token, the un-consumed remainder of the token stream, the speculative
peek cursor of the lexer (an index into `items`; `0` means "no outstanding
peek"), the accumulated diagnostics, and the strict-mode flag
(`state.strict.is_some()`). -/
structure Parser where
  curTok : Token
  items : List RawItem
  peekIdx : Nat
  errors : List ParserDiagnostic
  strict : Bool
deriving DecidableEq, Repr

/-- Result of a fallible parser operation.  The Rust methods take `&mut self`
and return `Result<..>`; the state survives an error, so the embedding returns
the state alongside the `Except` in every case. -/
def PR (α : Type) : Type := Except ParserDiagnostic α × Parser

/-- The diagnostic carried by a lexical failure of the modelled token source. -/
def lexerDiag : ParserDiagnostic :=
  { kind := .LexerError
    message := "Lexical error: the token source could not produce a token"
    primary := none
    secondary := []
    help := none }

/-- Diagnostic standing for exhaustion of the embedding's recursion fuel. -/
def fuelDiag : ParserDiagnostic :=
  { kind := .RecursionLimit
    message := "Recursion fuel exhausted"
    primary := none
    secondary := []
    help := none }

/-- Diagnostic pushed by the modelled primary parser when the current token
cannot begin an expression. -/
def expectedExprDiag : ParserDiagnostic :=
  { kind := .ExpectedExpression
    message := "Expected an expression but found an unexpected token"
    primary := none
    secondary := []
    help := none }

/-- The token the stream surfaces past its last item: a zero-width `EOF`
token at the end offset of the current token. -/
def eofToken (cur : Token) : Token :=
  ⟨TokenType.EOF, ⟨cur.lexeme.stop, cur.lexeme.stop⟩⟩

/-- Modelled from the spec (§6 Token Source boundary): `Parser::advance_lexer`
in surfacing mode (the unary subparser always calls it with `false`, i.e.
whitespace/linebreak tokens are surfaced, not skipped).  Advancing past the
last item yields the `EOF` token; a malformed item is a hard lexical error. -/
def advance_lexer (st : Parser) : PR Unit :=
  match st.items with
  | [] => (Except.ok (), { st with curTok := eofToken st.curTok, items := [] })
  | RawItem.lexErr :: _ => (Except.error lexerDiag, st)
  | RawItem.tok t :: rest => (Except.ok (), { st with curTok := t, items := rest })

/-- May `whitespace` consume this token kind?  Leading mode also consumes
linebreaks; trailing mode stops at them. -/
def skippable (leading : Bool) (t : TokenType) : Bool :=
  t == TokenType.Whitespace || (leading && t == TokenType.Linebreak)

/-- Modelled from the spec: the skipping core of `Parser::whitespace`.  Walks
the stream while the current token is whitespace (and, in leading mode,
linebreaks), returning the first non-skippable current token and the remaining
items. -/
def skipWsAux (leading : Bool) : Token → List RawItem →
    Except ParserDiagnostic (Token × List RawItem)
  | cur, items =>
    if skippable leading cur.tokenType then
      match items with
      | [] => Except.ok (eofToken cur, [])
      | RawItem.lexErr :: _ => Except.error lexerDiag
      | RawItem.tok t :: rest => skipWsAux leading t rest
    else Except.ok (cur, items)

/-- Modelled from the spec (§3 Whitespace Attachment): `Parser::whitespace
(leading)`.  Consumes whitespace tokens (plus linebreaks when `leading`) for
real and returns the span they cover, which is zero-width at the current
token's start when nothing is consumed. -/
def whitespace (leading : Bool) (st : Parser) : PR Span :=
  match skipWsAux leading st.curTok st.items with
  | Except.error e => (Except.error e, st)
  | Except.ok (cur, items) =>
      (Except.ok ⟨st.curTok.lexeme.start, cur.lexeme.start⟩,
        { st with curTok := cur, items := items })

/-- `self.lexer.reset()`: rewind the speculative peek cursor to the real
position. -/
def lexerReset (st : Parser) : Parser := { st with peekIdx := 0 }

/-- The lookahead loop of `parse_unary_expr` (unary_expr.rs lines 102-114)
walked over the raw items ahead of the peek cursor.  Returns the token type
found (`none` at end of stream), the linebreak flag, and how far the peek
cursor advanced; a malformed item propagates the lexical error (mirroring
`self.peek_lexer()?`) with the cursor advance made so far. -/
def peekAux : List RawItem → Bool →
    Except ParserDiagnostic (Option TokenType × Bool) × Nat
  | [], hadLb => (Except.ok (none, hadLb), 0)
  | RawItem.lexErr :: _, _ => (Except.error lexerDiag, 0)
  | RawItem.tok t :: rest, hadLb =>
    match t.tokenType with
    | TokenType.Whitespace =>
        let r := peekAux rest hadLb
        (r.1, r.2 + 1)
    | TokenType.Linebreak =>
        let r := peekAux rest true
        (r.1, r.2 + 1)
    | _ => (Except.ok (some t.tokenType, hadLb), 1)

/-- The lookahead loop acting on the parser state: only the peek cursor moves;
the real position (`curTok`, `items`) is untouched.  On the mid-peek lexical
error the loop, like the source's `self.peek_lexer()?`, returns control without
any reset. -/
def peekLoop (st : Parser) (hadLb : Bool) :
    Except ParserDiagnostic (Option TokenType × Bool) × Parser :=
  let r := peekAux (st.items.drop st.peekIdx) hadLb
  (r.1, { st with peekIdx := st.peekIdx + r.2 })

/-- Lines 13-17 of `parse_unary_expr`: resolve the leading whitespace, either
taking the already-consumed span or consuming it now. -/
def resolveLeading (leading : Option Span) (st : Parser) : PR Span :=
  match leading with
  | some s => (Except.ok s, st)
  | none => whitespace true st

/-- Modelled from the spec: the shared body of the primary parser — record
the current token's span, consume the token and its trailing whitespace, and
wrap the span plus whitespace attachment in the given literal constructor. -/
def parsePrimary (mk : LiteralExpr → Expr) (lw : Span) (st : Parser) : PR Expr :=
  match advance_lexer st with
  | (Except.error e, s) => (Except.error e, s)
  | (Except.ok _, st2) =>
    match whitespace false st2 with
    | (Except.error e, s) => (Except.error e, s)
    | (Except.ok after, st3) =>
        (Except.ok (mk ⟨st.curTok.lexeme, ⟨lw, after⟩⟩), st3)

/-- Modelled from the spec (§4.1, §2): `Parser::parse_lhs_expr`, the external
sibling subparser for the call/member/primary family.  Per the contract it
takes the already-consumed leading whitespace (or consumes it when absent),
produces one primary expression node from the current token, consumes the
token and its trailing whitespace, and hard-fails when the current token
cannot begin an expression. -/
def parse_lhs_expr (leading : Option Span) (st : Parser) : PR Expr :=
  match resolveLeading leading st with
  | (Except.error e, s) => (Except.error e, s)
  | (Except.ok lw, st1) =>
    match st1.curTok.tokenType with
    | TokenType.Ident => parsePrimary Expr.Identifier lw st1
    | TokenType.Number => parsePrimary Expr.Number lw st1
    | TokenType.TrueTok => parsePrimary Expr.TrueLit lw st1
    | TokenType.FalseTok => parsePrimary Expr.FalseLit lw st1
    | _ => (Except.error expectedExprDiag, st1)

/-- Is the token one of the prefix update operators handled by the first match
arm of `parse_unary_expr` (lines 20-55)? -/
def isUpdateOp (t : TokenType) : Bool :=
  t == TokenType.Increment || t == TokenType.Decrement

/-- Is the token in the fixed unary-operator set of the second match arm of
`parse_unary_expr` (lines 57-63)? -/
def isUnaryOp : TokenType → Bool
  | .Delete | .Void | .Typeof | .BinOp .Add | .BinOp .Subtract
  | .BitwiseNot | .LogicalNot => true
  | _ => false

/-- The invalid-assignment-target diagnostic for a prefix update (lines
29-42): secondary label on the two-byte operator, primary label on the
operand. -/
def invalidPrefixTargetDiag (t : TokenType) (start : Nat) (object : Expr) :
    ParserDiagnostic :=
  { kind := .InvalidTargetExpression
    message := "Invalid left hand side expression for prefix " ++ t.debugStr
    primary := some ⟨object.span, "Not a valid expression for the operator"⟩
    secondary := [⟨⟨start, start + 2⟩, "Prefix " ++ t.debugStr ++ " operation used here"⟩]
    help := none }

/-- The strict-mode identifier-deletion diagnostic (lines 72-74). -/
def identifierDeletionDiag (data : LiteralExpr) : ParserDiagnostic :=
  { kind := .IdentifierDeletion
    message := "`delete` cannot be applied to identifiers in strict mode code"
    primary := some ⟨data.span, "Attempting to delete this identifier is invalid"⟩
    secondary := []
    help := some "Help: `delete` is used to delete object properties" }

/-- The invalid-assignment-target diagnostic for a postfix update (lines
135-144): secondary label on the operator token, primary label on the
operand. -/
def invalidPostfixTargetDiag (op : TokenType) (opSpan : Span) (object : Expr) :
    ParserDiagnostic :=
  { kind := .InvalidTargetExpression
    message := "Invalid left hand side expression for postfix " ++ op.debugStr
    primary := some ⟨object.span, "Not a valid expression for the operator"⟩
    secondary := [⟨opSpan, "Postfix " ++ op.debugStr ++ " used here"⟩]
    help := none }

/-- Lines 70-78 of `parse_unary_expr`: after the operand of a fixed unary
operator is parsed, push the identifier-deletion diagnostic when the parser is
in strict mode, the operator is `delete` and the operand is an identifier. -/
def deleteCheck (t : TokenType) (object : Expr) (st : Parser) : Parser :=
  if st.strict && t == TokenType.Delete then
    match object with
    | Expr.Identifier data =>
        { st with errors := st.errors ++ [identifierDeletionDiag data] }
    | _ => st
  else st

/-- Lines 127-157 of `parse_unary_expr`: consume leading whitespace, the
postfix operator token and trailing whitespace for real, validate the operand
against the assignment-target predicate (diagnostic-only on failure), and
build the postfix `Update` node. -/
def postfixConsume (object : Expr) (start : Nat) (st : Parser) : PR Expr :=
  match whitespace true st with
  | (Except.error e, s) => (Except.error e, s)
  | (Except.ok before, st1) =>
    let opSpan := st1.curTok.lexeme
    let op := st1.curTok.tokenType
    let stop := st1.curTok.lexeme.stop
    match advance_lexer st1 with
    | (Except.error e, s) => (Except.error e, s)
    | (Except.ok _, st2) =>
      match whitespace false st2 with
      | (Except.error e, s) => (Except.error e, s)
      | (Except.ok after, st3) =>
        let st4 :=
          if is_valid_assign_target object then st3
          else { st3 with
                  errors := st3.errors ++ [invalidPostfixTargetDiag op opSpan object] }
        (Except.ok (Expr.Update ⟨start, stop⟩ false object op ⟨before, after⟩), st4)

/-- One unfolding step of `parse_unary_expr`, with the recursive occurrence
abstracted as `recur`.  This is a line-by-line embedding of
`Parser::parse_unary_expr` (unary_expr.rs lines 9-158); the three match arms
of the source become the three branches of the `if` chain. -/
def parse_unary_step (recur : Option Span → Parser → PR Expr)
    (leading : Option Span) (st : Parser) : PR Expr :=
  match resolveLeading leading st with
  | (Except.error e, s) => (Except.error e, s)
  | (Except.ok leadingWs, st0) =>
    let t := st0.curTok.tokenType
    if isUpdateOp t then
      -- lines 20-55: prefix update
      let start := st0.curTok.lexeme.start
      match advance_lexer st0 with
      | (Except.error e, s) => (Except.error e, s)
      | (Except.ok _, st1) =>
        match whitespace false st1 with
        | (Except.error e, s) => (Except.error e, s)
        | (Except.ok after, st2) =>
          match recur none st2 with
          | (Except.error e, s) => (Except.error e, s)
          | (Except.ok object, st3) =>
            let stop := object.span.stop
            let st4 :=
              if is_valid_assign_target object then st3
              else { st3 with
                      errors := st3.errors ++ [invalidPrefixTargetDiag t start object] }
            (Except.ok
              (Expr.Update ⟨start, stop⟩ true object t ⟨leadingWs, after⟩), st4)
    else if isUnaryOp t then
      -- lines 57-89: fixed unary operator
      let start := st0.curTok.lexeme.start
      match advance_lexer st0 with
      | (Except.error e, s) => (Except.error e, s)
      | (Except.ok _, st1) =>
        match whitespace false st1 with
        | (Except.error e, s) => (Except.error e, s)
        | (Except.ok after, st2) =>
          match recur none st2 with
          | (Except.error e, s) => (Except.error e, s)
          | (Except.ok object, st3) =>
            let stop := object.span.stop
            let st4 := deleteCheck t object st3
            (Except.ok
              (Expr.Unary ⟨start, stop⟩ object t ⟨leadingWs, after⟩), st4)
    else
      -- lines 94-157: candidate operand plus bounded postfix lookahead
      match parse_lhs_expr (some leadingWs) st0 with
      | (Except.error e, s) => (Except.error e, s)
      | (Except.ok object, st1) =>
        let start := object.span.start
        let hadLb0 := st1.curTok.tokenType == TokenType.Linebreak
        if isUpdateOp st1.curTok.tokenType then
          -- line 99's condition is false: no lookahead needed
          if hadLb0 then (Except.ok object, st1)
          else postfixConsume object start st1
        else
          match peekLoop st1 hadLb0 with
          | (Except.error e, s) => (Except.error e, s)
          | (Except.ok (next, hadLb), st2) =>
            let st3 := lexerReset st2
            if next != some TokenType.Increment
                && next != some TokenType.Decrement then
              (Except.ok object, st3)
            else if hadLb then (Except.ok object, st3)
            else postfixConsume object start st3

/-- `Parser::parse_unary_expr` with explicit recursion fuel (the Rust
recursion is unbounded; running out of fuel is a hard error that no theorem
below identifies with a source behaviour). -/
def parse_unary_expr : Nat → Option Span → Parser → PR Expr
  | 0, _, st => (Except.error fuelDiag, st)
  | Nat.succ fuel, leading, st => parse_unary_step (parse_unary_expr fuel) leading st

/-- `obj.identData` is `some d` exactly when the node is `Identifier d`
(mirrors the `if let Expr::Identifier(ref data) = object` test). -/
def Expr.identData : Expr → Option LiteralExpr
  | .Identifier d => some d
  | _ => none

/-! ### The `no-extra-semi` rule (`rslint_core/src/groups/errors/no_extra_semi.rs`) -/

/-- `SyntaxKind` members relevant to the rule: the allow-list kinds, the
empty statement, and a few other kinds a tree can contain. -/
inductive SyntaxKind
  | FOR_STMT
  | FOR_IN_STMT
  | FOR_OF_STMT
  | WHILE_STMT
  | DO_WHILE_STMT
  | IF_STMT
  | LABELLED_STMT
  | WITH_STMT
  | EMPTY_STMT
  | BLOCK_STMT
  | EXPR_STMT
  | CLASS_BODY
  | SCRIPT
deriving DecidableEq, Repr

/-- A read-only tree node as the analysis stage sees it: kind tag, span, and
a back-reference to the parent (`SyntaxNode::kind/parent` plus the text range
used by the primary label). -/
inductive SyntaxNode
  | node (kind : SyntaxKind) (range : Span) (parent : Option SyntaxNode)

/-- `SyntaxNode::kind()`. -/
def SyntaxNode.kind : SyntaxNode → SyntaxKind
  | .node k _ _ => k

/-- The node's text range (what `.primary(node, ..)` labels). -/
def SyntaxNode.range : SyntaxNode → Span
  | .node _ r _ => r

/-- `SyntaxNode::parent()`. -/
def SyntaxNode.parent : SyntaxNode → Option SyntaxNode
  | .node _ _ p => p

/-- A diagnostic pushed by a lint rule: attributed rule name, message and
primary label (`ctx.err(name, msg).primary(node, help)`). -/
structure RuleDiagnostic where
  ruleName : String
  message : String
  primary : Label
deriving DecidableEq, Repr

/-- The mutable rule context: the diagnostic sink the rule appends to. -/
structure RuleCtx where
  diagnostics : List RuleDiagnostic
deriving DecidableEq, Repr

/-- `ctx.add_err(err)`: append-only sink. -/
def RuleCtx.add_err (ctx : RuleCtx) (d : RuleDiagnostic) : RuleCtx :=
  { ctx with diagnostics := ctx.diagnostics ++ [d] }

/-- The fixed parent allow-list (`ALLOWED`, no_extra_semi.rs lines 31-40). -/
def ALLOWED : List SyntaxKind :=
  [.FOR_STMT, .FOR_IN_STMT, .FOR_OF_STMT, .WHILE_STMT,
   .DO_WHILE_STMT, .IF_STMT, .LABELLED_STMT, .WITH_STMT]

/-- The diagnostic built by the rule for one unnecessary semicolon. -/
def unnecessarySemicolonDiag (node : SyntaxNode) : RuleDiagnostic :=
  { ruleName := "no-extra-semi"
    message := "Unnecessary semicolon"
    primary := ⟨node.range, "help: delete this semicolon"⟩ }

/-- `NoExtraSemi::check_node` (no_extra_semi.rs lines 44-57): flag an empty
statement whose parent is absent or not in the allow-list; always return
`None`. -/
def check_node (node : SyntaxNode) (ctx : RuleCtx) : Option Unit × RuleCtx :=
  if node.kind == SyntaxKind.EMPTY_STMT
      && (match node.parent with
          | none => true
          | some parent => !(ALLOWED.contains parent.kind)) then
    (none, ctx.add_err (unnecessarySemicolonDiag node))
  else
    (none, ctx)

/-! ### Definitions for the reconstruction invariant (claim C6) -/

/-- The leaf tokens of an expression in source order, each as the triple
(before-whitespace span, token span, after-whitespace span).  `Update` and
`Unary` nodes do not store their operator's token span; it is recovered from
the whitespace attachment as `[before.stop, after.start)` (the invariant
`before.end == token.start`, `after.start == token.end` of §3). -/
def leafTriples : Expr → List (Span × Span × Span)
  | .Identifier d | .Number d | .TrueLit d | .FalseLit d =>
      [(d.whitespace.before, d.span, d.whitespace.after)]
  | .Update _ true obj _ ws =>
      (ws.before, ⟨ws.before.stop, ws.after.start⟩, ws.after) :: leafTriples obj
  | .Update _ false obj _ ws =>
      leafTriples obj ++ [(ws.before, ⟨ws.before.stop, ws.after.start⟩, ws.after)]
  | .Unary _ obj _ ws =>
      (ws.before, ⟨ws.before.stop, ws.after.start⟩, ws.after) :: leafTriples obj

/-- The leaf triples tile the half-open range `[a, c)` contiguously: each
whitespace span abuts its token (`before.end = token.start`,
`after.start = token.end`) and consecutive leaves abut each other. -/
def tripleChain : Nat → List (Span × Span × Span) → Nat → Prop
  | a, [], c => a = c
  | a, (w1, tk, w2) :: rest, c =>
      w1.start = a ∧ w1.start ≤ w1.stop ∧ w1.stop = tk.start ∧
      tk.start ≤ tk.stop ∧ tk.stop = w2.start ∧ w2.start ≤ w2.stop ∧
      tripleChain w2.stop rest c

/-- The slice `[a, b)` of a source buffer. -/
def sliceStr (src : List Char) (a b : Nat) : List Char :=
  (src.drop a).take (b - a)

/-- Concatenation, for each leaf in source order, of the text covered by its
before-whitespace span, its token span and its after-whitespace span. -/
def reconstructTriples (src : List Char) : List (Span × Span × Span) → List Char
  | [] => []
  | (w1, tk, w2) :: rest =>
      sliceStr src w1.start w1.stop ++ sliceStr src tk.start tk.stop ++
      sliceStr src w2.start w2.stop ++ reconstructTriples src rest

/-- The un-consumed token stream tiles the buffer contiguously from position
`p`: every item is a token, token spans are well-formed and adjacent. -/
def chainItems : Nat → List RawItem → Prop
  | _, [] => True
  | _, RawItem.lexErr :: _ => False
  | p, RawItem.tok t :: rest =>
      t.lexeme.start = p ∧ t.lexeme.start ≤ t.lexeme.stop ∧
      chainItems t.lexeme.stop rest

/-- Well-formed parser state: the current token's span is well-formed and the
remaining stream tiles the buffer contiguously after it. -/
def Parser.wf (st : Parser) : Prop :=
  st.curTok.lexeme.start ≤ st.curTok.lexeme.stop ∧
  chainItems st.curTok.lexeme.stop st.items

/-- Contract on the `leading` argument of `parse_unary_expr`: an
already-consumed leading-whitespace span ends exactly at the current token. -/
def LeadOk : Option Span → Parser → Prop
  | none, _ => True
  | some lw, st => lw.start ≤ lw.stop ∧ lw.stop = st.curTok.lexeme.start

/-- The buffer position at which the parse's coverage begins. -/
def startOf : Option Span → Parser → Nat
  | none, st => st.curTok.lexeme.start
  | some lw, _ => lw.start

/-- The specification proved of every fuel instance of `parse_unary_expr`:
a successful parse of a well-formed state covers, through its leaf triples,
exactly the range from the parse start to the new current token. -/
def UnarySpec (p : Option Span → Parser → PR Expr) : Prop :=
  ∀ l st e st', Parser.wf st → LeadOk l st → p l st = (Except.ok e, st') →
    Parser.wf st' ∧
    tripleChain (startOf l st) (leafTriples e) st'.curTok.lexeme.start

/-- The transactional-lookahead specification: a call entered with no
outstanding peek leaves no outstanding peek behind when it returns normally. -/
def PeekRestored (p : Option Span → Parser → PR Expr) : Prop :=
  ∀ l st e st', st.peekIdx = 0 → p l st = (Except.ok e, st') → st'.peekIdx = 0

/-! ### Concrete token streams used by the claims' tests -/

/-- A fresh parser over a given current token, stream and strict flag. -/
def mkParser (cur : Token) (items : List RawItem) (strict : Bool) : Parser :=
  ⟨cur, items, 0, [], strict⟩

/-- The token stream of `"true++"`: `true` at [0,4), `++` at [4,6). -/
def stTruePP : Parser :=
  mkParser ⟨.TrueTok, ⟨0, 4⟩⟩ [.tok ⟨.Increment, ⟨4, 6⟩⟩] false

/-- The token stream of `"++ ++ x"`. -/
def stChain : Parser :=
  mkParser ⟨.Increment, ⟨0, 2⟩⟩
    [.tok ⟨.Whitespace, ⟨2, 3⟩⟩, .tok ⟨.Increment, ⟨3, 5⟩⟩,
     .tok ⟨.Whitespace, ⟨5, 6⟩⟩, .tok ⟨.Ident, ⟨6, 7⟩⟩] false

/-- The token stream of `"--foo \n++5"`. -/
def stTwo : Parser :=
  mkParser ⟨.Decrement, ⟨0, 2⟩⟩
    [.tok ⟨.Ident, ⟨2, 5⟩⟩, .tok ⟨.Whitespace, ⟨5, 6⟩⟩,
     .tok ⟨.Linebreak, ⟨6, 7⟩⟩, .tok ⟨.Increment, ⟨7, 9⟩⟩,
     .tok ⟨.Number, ⟨9, 10⟩⟩] false

/-- A stream whose lookahead hits a lexical error mid-peek: an identifier, a
linebreak, a whitespace token, then a malformed token. -/
def stPeekErr : Parser :=
  mkParser ⟨.Ident, ⟨0, 3⟩⟩
    [.tok ⟨.Linebreak, ⟨3, 4⟩⟩, .tok ⟨.Whitespace, ⟨4, 5⟩⟩, .lexErr] false

/-- The token stream of `"mk \n++"`: a linebreak separates the operand from
the candidate postfix operator. -/
def stMkLb : Parser :=
  mkParser ⟨.Ident, ⟨0, 2⟩⟩
    [.tok ⟨.Whitespace, ⟨2, 3⟩⟩, .tok ⟨.Linebreak, ⟨3, 4⟩⟩,
     .tok ⟨.Increment, ⟨4, 6⟩⟩] false

/-- The token stream of `"delete x"`, parsed in strict mode. -/
def stDel : Parser :=
  mkParser ⟨.Delete, ⟨0, 6⟩⟩
    [.tok ⟨.Whitespace, ⟨6, 7⟩⟩, .tok ⟨.Ident, ⟨7, 8⟩⟩] true

/-- The token stream of `"5"`: a single number literal, not a valid
assignment target. -/
def stFive : Parser := mkParser ⟨.Number, ⟨0, 1⟩⟩ [] false

/-- An empty statement inside a block (the `if (foo) { ; }` shape). -/
def nodeEmptyInBlock : SyntaxNode :=
  SyntaxNode.node SyntaxKind.EMPTY_STMT ⟨11, 12⟩
    (some (SyntaxNode.node SyntaxKind.BLOCK_STMT ⟨9, 14⟩ none))

/-- An empty statement as the direct body of a `for(;;)` loop. -/
def nodeEmptyInFor : SyntaxNode :=
  SyntaxNode.node SyntaxKind.EMPTY_STMT ⟨7, 8⟩
    (some (SyntaxNode.node SyntaxKind.FOR_STMT ⟨0, 8⟩ none))

/-- A node that is not an empty statement. -/
def nodeForStmt : SyntaxNode := SyntaxNode.node SyntaxKind.FOR_STMT ⟨0, 8⟩ none

/-- An empty rule context. -/
def ctx0 : RuleCtx := ⟨[]⟩

/-! ### Frame and well-formedness lemmas for the parser operations -/

theorem advance_frame {st : Parser} {r : Except ParserDiagnostic Unit} {st' : Parser}
    (h : advance_lexer st = (r, st')) :
    st'.peekIdx = st.peekIdx ∧ st'.errors = st.errors ∧ st'.strict = st.strict := by
  unfold advance_lexer at h
  split at h <;> (injection h with h1 h2; subst h2; exact ⟨rfl, rfl, rfl⟩)

theorem advance_wf {st : Parser} (hwf : Parser.wf st) :
    ∃ st', advance_lexer st = (Except.ok (), st') ∧ Parser.wf st' ∧
      st'.curTok.lexeme.start = st.curTok.lexeme.stop ∧
      st'.peekIdx = st.peekIdx ∧ st'.errors = st.errors ∧ st'.strict = st.strict := by
  obtain ⟨h1, h2⟩ := hwf
  unfold advance_lexer
  rcases hit : st.items with _ | ⟨i, rest⟩
  · rw [hit] at h2
    exact ⟨_, rfl, ⟨le_refl _, by simp [chainItems]⟩, rfl, rfl, rfl, rfl⟩
  · cases i with
    | lexErr => rw [hit] at h2; simp [chainItems] at h2
    | tok t =>
        rw [hit] at h2
        obtain ⟨ha, hb, hc⟩ := h2
        exact ⟨_, rfl, ⟨hb, hc⟩, ha, rfl, rfl, rfl⟩

theorem skipWsAux_spec (b : Bool) (items : List RawItem) :
    ∀ (cur : Token), cur.lexeme.start ≤ cur.lexeme.stop →
      chainItems cur.lexeme.stop items →
      ∃ cur' items', skipWsAux b cur items = Except.ok (cur', items') ∧
        cur'.lexeme.start ≤ cur'.lexeme.stop ∧
        chainItems cur'.lexeme.stop items' ∧
        cur.lexeme.start ≤ cur'.lexeme.start := by
  induction items with
  | nil =>
      intro cur h1 h2
      unfold skipWsAux
      split
      · exact ⟨_, _, rfl, le_refl _, by simp [chainItems], h1⟩
      · exact ⟨cur, [], rfl, h1, h2, le_refl _⟩
  | cons i rest ih =>
      intro cur h1 h2
      unfold skipWsAux
      split
      · cases i with
        | lexErr => simp [chainItems] at h2
        | tok t =>
            obtain ⟨ha, hb, hc⟩ := h2
            obtain ⟨cur', items', heq, k1, k2, k3⟩ := ih t hb hc
            exact ⟨cur', items', heq, k1, k2, by omega⟩
      · exact ⟨cur, _, rfl, h1, h2, le_refl _⟩

theorem whitespace_spec {b : Bool} {st : Parser} (hwf : Parser.wf st) :
    ∃ sp st', whitespace b st = (Except.ok sp, st') ∧ Parser.wf st' ∧
      sp.start = st.curTok.lexeme.start ∧ sp.stop = st'.curTok.lexeme.start ∧
      sp.start ≤ sp.stop ∧
      st'.peekIdx = st.peekIdx ∧ st'.errors = st.errors ∧ st'.strict = st.strict := by
  obtain ⟨h1, h2⟩ := hwf
  obtain ⟨cur', items', heq, k1, k2, k3⟩ := skipWsAux_spec b st.items st.curTok h1 h2
  refine ⟨⟨st.curTok.lexeme.start, cur'.lexeme.start⟩,
    { st with curTok := cur', items := items' }, ?_, ⟨k1, k2⟩, rfl, rfl, k3, rfl, rfl, rfl⟩
  unfold whitespace
  rw [heq]

theorem whitespace_frame {b : Bool} {st : Parser} {r : Except ParserDiagnostic Span}
    {st' : Parser} (h : whitespace b st = (r, st')) :
    st'.peekIdx = st.peekIdx ∧ st'.errors = st.errors ∧ st'.strict = st.strict := by
  unfold whitespace at h
  split at h <;> (injection h with h1 h2; subst h2; exact ⟨rfl, rfl, rfl⟩)

theorem peekLoop_frame {st : Parser} {b : Bool}
    {r : Except ParserDiagnostic (Option TokenType × Bool)} {st' : Parser}
    (h : peekLoop st b = (r, st')) :
    st'.curTok = st.curTok ∧ st'.items = st.items ∧
    st'.errors = st.errors ∧ st'.strict = st.strict := by
  unfold peekLoop at h
  injection h with h1 h2
  subst h2
  exact ⟨rfl, rfl, rfl, rfl⟩

theorem resolveLeading_spec {l : Option Span} {st : Parser}
    (hwf : Parser.wf st) (hl : LeadOk l st) :
    ∃ lw st0, resolveLeading l st = (Except.ok lw, st0) ∧ Parser.wf st0 ∧
      lw.start = startOf l st ∧ lw.start ≤ lw.stop ∧
      lw.stop = st0.curTok.lexeme.start ∧
      st0.peekIdx = st.peekIdx ∧ st0.errors = st.errors ∧ st0.strict = st.strict := by
  cases l with
  | some lw => exact ⟨lw, st, rfl, hwf, rfl, hl.1, hl.2, rfl, rfl, rfl⟩
  | none =>
      obtain ⟨sp, st', heq, hwf', e1, e2, e3, e4, e5, e6⟩ := whitespace_spec hwf
      exact ⟨sp, st', heq, hwf', e1, e3, e2, e4, e5, e6⟩

theorem resolveLeading_frame {l : Option Span} {st : Parser}
    {r : Except ParserDiagnostic Span} {st' : Parser}
    (h : resolveLeading l st = (r, st')) :
    st'.peekIdx = st.peekIdx ∧ st'.errors = st.errors ∧ st'.strict = st.strict := by
  cases l with
  | some lw => injection h with h1 h2; subst h2; exact ⟨rfl, rfl, rfl⟩
  | none => exact whitespace_frame h

theorem deleteCheck_frame (t : TokenType) (o : Expr) (st : Parser) :
    (deleteCheck t o st).curTok = st.curTok ∧ (deleteCheck t o st).items = st.items ∧
    (deleteCheck t o st).peekIdx = st.peekIdx ∧
    (deleteCheck t o st).strict = st.strict := by
  unfold deleteCheck
  split
  · split <;> exact ⟨rfl, rfl, rfl, rfl⟩
  · exact ⟨rfl, rfl, rfl, rfl⟩

/-! ### Chain and slice lemmas -/

theorem tripleChain_le {L : List (Span × Span × Span)} :
    ∀ {a c : Nat}, tripleChain a L c → a ≤ c := by
  induction L with
  | nil => intro a c h; exact le_of_eq h
  | cons x rest ih =>
      intro a c h
      obtain ⟨w1, tk, w2⟩ := x
      obtain ⟨h1, h2, h3, h4, h5, h6, h7⟩ := h
      have := ih h7
      omega

theorem tripleChain_append {M : List (Span × Span × Span)} :
    ∀ {L : List (Span × Span × Span)} {a b c : Nat},
      tripleChain a L b → tripleChain b M c → tripleChain a (L ++ M) c := by
  intro L
  induction L with
  | nil =>
      intro a b c h1 h2
      rw [show a = b from h1]
      simpa using h2
  | cons x rest ih =>
      intro a b c h1 h2
      obtain ⟨w1, tk, w2⟩ := x
      obtain ⟨k1, k2, k3, k4, k5, k6, k7⟩ := h1
      exact ⟨k1, k2, k3, k4, k5, k6, ih k7 h2⟩

theorem sliceStr_append (src : List Char) {a b c : Nat} (h1 : a ≤ b) (h2 : b ≤ c) :
    sliceStr src a b ++ sliceStr src b c = sliceStr src a c := by
  unfold sliceStr
  have hc : c - a = (b - a) + (c - b) := by omega
  rw [hc, List.take_add]
  congr 2
  rw [List.drop_drop]
  congr 1
  omega

theorem reconstruct_eq (src : List Char) :
    ∀ {L : List (Span × Span × Span)} {a c : Nat}, tripleChain a L c →
      reconstructTriples src L = sliceStr src a c := by
  intro L
  induction L with
  | nil =>
      intro a c h
      rw [show a = c from h]
      simp [reconstructTriples, sliceStr]
  | cons x rest ih =>
      intro a c h
      obtain ⟨w1, tk, w2⟩ := x
      obtain ⟨k1, k2, k3, k4, k5, k6, k7⟩ := h
      have hrest : w2.stop ≤ c := tripleChain_le k7
      rw [reconstructTriples, ih k7]
      rw [List.append_assoc, List.append_assoc]
      rw [sliceStr_append src k6 hrest]
      rw [k5] at k4 ⊢
      rw [sliceStr_append src k4 (by omega)]
      rw [k3] at k2 ⊢
      rw [sliceStr_append src k2 (by omega)]
      rw [k1]

/-! ### Lemmas about the primary parser and the postfix consumption -/

theorem wf_of_eq {s1 s2 : Parser} (h1 : s2.curTok = s1.curTok)
    (h2 : s2.items = s1.items) (h : Parser.wf s1) : Parser.wf s2 := by
  unfold Parser.wf at h ⊢
  rw [h1, h2]
  exact h

theorem ite_errors_frame (c : Prop) [Decidable c] (st : Parser)
    (E : List ParserDiagnostic) :
    (if c then st else { st with errors := E }).curTok = st.curTok ∧
    (if c then st else { st with errors := E }).items = st.items ∧
    (if c then st else { st with errors := E }).peekIdx = st.peekIdx ∧
    (if c then st else { st with errors := E }).strict = st.strict := by
  split <;> exact ⟨rfl, rfl, rfl, rfl⟩

theorem parsePrimary_spec {mk : LiteralExpr → Expr} {lw : Span} {st : Parser}
    {obj : Expr} {st' : Parser} (hwf : Parser.wf st)
    (h : parsePrimary mk lw st = (Except.ok obj, st')) :
    ∃ after, obj = mk ⟨st.curTok.lexeme, ⟨lw, after⟩⟩ ∧ Parser.wf st' ∧
      after.start = st.curTok.lexeme.stop ∧
      after.stop = st'.curTok.lexeme.start ∧ after.start ≤ after.stop ∧
      st'.peekIdx = st.peekIdx ∧ st'.errors = st.errors ∧
      st'.strict = st.strict := by
  unfold parsePrimary at h
  obtain ⟨st2, hadv, hwf2, e1, e2, e3, e4⟩ := advance_wf hwf
  rw [hadv] at h
  dsimp only at h
  obtain ⟨sp, st3, hws, hwf3, w1, w2, w3, w4, w5, w6⟩ := whitespace_spec hwf2
  rw [hws] at h
  dsimp only at h
  injection h with h1 h2
  subst h2
  injection h1 with h1
  exact ⟨sp, h1.symm, hwf3, by omega, w2, w3, by rw [w4, e2], by rw [w5, e3],
    by rw [w6, e4]⟩

theorem parsePrimary_frame {mk : LiteralExpr → Expr} {lw : Span} {st : Parser}
    {r : Except ParserDiagnostic Expr} {st' : Parser}
    (h : parsePrimary mk lw st = (r, st')) :
    st'.peekIdx = st.peekIdx ∧ st'.errors = st.errors ∧ st'.strict = st.strict := by
  unfold parsePrimary at h
  rcases hadv : advance_lexer st with ⟨ra, sa⟩
  rw [hadv] at h
  obtain ⟨a1, a2, a3⟩ := advance_frame hadv
  cases ra with
  | error e => dsimp only at h; injection h with h1 h2; subst h2; exact ⟨a1, a2, a3⟩
  | ok u =>
      dsimp only at h
      rcases hws : whitespace false sa with ⟨rw_, sw⟩
      rw [hws] at h
      obtain ⟨b1, b2, b3⟩ := whitespace_frame hws
      cases rw_ with
      | error e =>
          dsimp only at h
          injection h with h1 h2
          subst h2
          exact ⟨by rw [b1, a1], by rw [b2, a2], by rw [b3, a3]⟩
      | ok sp =>
          dsimp only at h
          injection h with h1 h2
          subst h2
          exact ⟨by rw [b1, a1], by rw [b2, a2], by rw [b3, a3]⟩

theorem parse_lhs_spec {lw : Span} {st : Parser} {obj : Expr} {st' : Parser}
    (hwf : Parser.wf st) (h1 : lw.start ≤ lw.stop)
    (h2 : lw.stop = st.curTok.lexeme.start)
    (h : parse_lhs_expr (some lw) st = (Except.ok obj, st')) :
    Parser.wf st' ∧
    tripleChain lw.start (leafTriples obj) st'.curTok.lexeme.start ∧
    obj.span.start = st.curTok.lexeme.start ∧ obj.isUpdate = false ∧
    st'.peekIdx = st.peekIdx ∧ st'.errors = st.errors ∧
    st'.strict = st.strict := by
  unfold parse_lhs_expr resolveLeading at h
  dsimp only at h
  rcases htt : st.curTok.tokenType <;> rw [htt] at h <;> dsimp only at h <;>
    first
    | (injection h with hx hy; exact Except.noConfusion hx)
    | (obtain ⟨after, ho, hwf', a1, a2, a3, a4, a5, a6⟩ := parsePrimary_spec hwf h
       subst ho
       exact ⟨hwf', ⟨rfl, h1, h2, hwf.1, a1.symm, a3, a2⟩, rfl, rfl, a4, a5, a6⟩)

theorem parse_lhs_frame {l : Option Span} {st : Parser}
    {r : Except ParserDiagnostic Expr} {st' : Parser}
    (h : parse_lhs_expr l st = (r, st')) :
    st'.peekIdx = st.peekIdx ∧ st'.errors = st.errors ∧ st'.strict = st.strict := by
  unfold parse_lhs_expr at h
  rcases hres : resolveLeading l st with ⟨rl, st1⟩
  rw [hres] at h
  obtain ⟨f1, f2, f3⟩ := resolveLeading_frame hres
  cases rl with
  | error e => dsimp only at h; injection h with h1 h2; subst h2; exact ⟨f1, f2, f3⟩
  | ok lw =>
      dsimp only at h
      rcases htt : st1.curTok.tokenType <;> rw [htt] at h <;> dsimp only at h <;>
        first
        | (injection h with h1 h2; subst h2; exact ⟨f1, f2, f3⟩)
        | (obtain ⟨g1, g2, g3⟩ := parsePrimary_frame h
           exact ⟨by rw [g1, f1], by rw [g2, f2], by rw [g3, f3]⟩)

theorem parse_lhs_not_update {l : Option Span} {st : Parser} {obj : Expr}
    {st' : Parser} (h : parse_lhs_expr l st = (Except.ok obj, st')) :
    obj.isUpdate = false := by
  unfold parse_lhs_expr at h
  rcases hres : resolveLeading l st with ⟨rl, st1⟩
  rw [hres] at h
  cases rl with
  | error e => dsimp only at h; exact absurd (congrArg Prod.fst h) (by simp)
  | ok lw =>
      dsimp only at h
      rcases htt : st1.curTok.tokenType <;> rw [htt] at h <;> dsimp only at h <;>
        first
        | (injection h with hx hy; exact Except.noConfusion hx)
        | (unfold parsePrimary at h
           rcases hadv : advance_lexer st1 with ⟨ra, sa⟩
           rw [hadv] at h
           cases ra with
           | error e => dsimp only at h; exact absurd (congrArg Prod.fst h) (by simp)
           | ok u =>
               dsimp only at h
               rcases hws : whitespace false sa with ⟨rw_, sw⟩
               rw [hws] at h
               cases rw_ with
               | error e => dsimp only at h; exact absurd (congrArg Prod.fst h) (by simp)
               | ok sp =>
                   dsimp only at h
                   injection h with h1 h2
                   injection h1 with h1
                   rw [← h1]
                   rfl)

theorem postfixConsume_spec {object : Expr} {start a : Nat} {st : Parser}
    {e : Expr} {st' : Parser} (hwf : Parser.wf st)
    (hchain : tripleChain a (leafTriples object) st.curTok.lexeme.start)
    (h : postfixConsume object start st = (Except.ok e, st')) :
    Parser.wf st' ∧
    tripleChain a (leafTriples e) st'.curTok.lexeme.start := by
  unfold postfixConsume at h
  obtain ⟨before, stA, hws, hwfA, b1, b2, b3, b4, b5, b6⟩ := whitespace_spec hwf
  rw [hws] at h
  dsimp only at h
  obtain ⟨stB, hadv, hwfB, c1, c2, c3, c4⟩ := advance_wf hwfA
  rw [hadv] at h
  dsimp only at h
  obtain ⟨after, stC, hws2, hwfC, d1, d2, d3, d4, d5, d6⟩ := whitespace_spec hwfB
  rw [hws2] at h
  dsimp only at h
  injection h with h1 h2
  injection h1 with h1
  subst h1
  obtain ⟨i1, i2, i3, i4⟩ := ite_errors_frame
    (is_valid_assign_target object = true) stC
    (stC.errors ++ [invalidPostfixTargetDiag stA.curTok.tokenType
      stA.curTok.lexeme object])
  rw [h2] at i1 i2
  constructor
  · exact wf_of_eq i1 i2 hwfC
  · rw [i1]
    simp only [leafTriples]
    refine tripleChain_append hchain ?_
    have hA := hwfA.1
    exact ⟨b1, b3, rfl, by dsimp only; omega, rfl, d3, d2⟩

theorem postfixConsume_frame {object : Expr} {start : Nat} {st : Parser}
    {r : Except ParserDiagnostic Expr} {st' : Parser}
    (h : postfixConsume object start st = (r, st')) :
    st'.peekIdx = st.peekIdx ∧ st'.strict = st.strict := by
  unfold postfixConsume at h
  rcases hws : whitespace true st with ⟨rw1, s1⟩
  rw [hws] at h
  obtain ⟨a1, a2, a3⟩ := whitespace_frame hws
  cases rw1 with
  | error e => dsimp only at h; injection h with h1 h2; subst h2; exact ⟨a1, a3⟩
  | ok before =>
      dsimp only at h
      rcases hadv : advance_lexer s1 with ⟨ra, s2⟩
      rw [hadv] at h
      obtain ⟨c1, c2, c3⟩ := advance_frame hadv
      cases ra with
      | error e =>
          dsimp only at h
          injection h with h1 h2
          subst h2
          exact ⟨by rw [c1, a1], by rw [c3, a3]⟩
      | ok u =>
          dsimp only at h
          rcases hws2 : whitespace false s2 with ⟨rw2, s3⟩
          rw [hws2] at h
          obtain ⟨d1, d2, d3⟩ := whitespace_frame hws2
          cases rw2 with
          | error e =>
              dsimp only at h
              injection h with h1 h2
              subst h2
              exact ⟨by rw [d1, c1, a1], by rw [d3, c3, a3]⟩
          | ok after =>
              dsimp only at h
              injection h with h1 h2
              obtain ⟨i1, i2, i3, i4⟩ := ite_errors_frame
                (is_valid_assign_target object = true) s3
                (s3.errors ++ [invalidPostfixTargetDiag s1.curTok.tokenType
                  s1.curTok.lexeme object])
              rw [h2] at i3 i4
              exact ⟨by rw [i3, d1, c1, a1], by rw [i4, d3, c3, a3]⟩

theorem postfixConsume_shape {object : Expr} {start : Nat} {st : Parser}
    {e : Expr} {st' : Parser} (h : postfixConsume object start st = (Except.ok e, st')) :
    e.isUpdate = true := by
  unfold postfixConsume at h
  rcases hws : whitespace true st with ⟨rw1, s1⟩
  rw [hws] at h
  cases rw1 with
  | error e2 => dsimp only at h; exact absurd (congrArg Prod.fst h) (by simp)
  | ok before =>
      dsimp only at h
      rcases hadv : advance_lexer s1 with ⟨ra, s2⟩
      rw [hadv] at h
      cases ra with
      | error e2 => dsimp only at h; exact absurd (congrArg Prod.fst h) (by simp)
      | ok u =>
          dsimp only at h
          rcases hws2 : whitespace false s2 with ⟨rw2, s3⟩
          rw [hws2] at h
          cases rw2 with
          | error e2 => dsimp only at h; exact absurd (congrArg Prod.fst h) (by simp)
          | ok after =>
              dsimp only at h
              injection h with h1 h2
              injection h1 with h1
              rw [← h1]
              rfl

/-! ### The coverage specification of `parse_unary_expr` (claim C6) -/

theorem isUpdateOp_not_linebreak {t : TokenType} (h : isUpdateOp t = true) :
    (t == TokenType.Linebreak) = false := by
  cases t <;> simp_all [isUpdateOp]

theorem parse_unary_step_spec {recur : Option Span → Parser → PR Expr}
    (hrec : UnarySpec recur) : UnarySpec (parse_unary_step recur) := by
  intro l st e st' hwf hl h
  obtain ⟨lw, st0, hres, hwf0, r1, r2, r3, r4, r5, r6⟩ := resolveLeading_spec hwf hl
  unfold parse_unary_step at h
  rw [hres] at h
  dsimp only at h
  rw [← r1]
  split at h
  · -- prefix update branch
    rename_i hup
    obtain ⟨st1, hadv, hwf1, a1, a2, a3, a4⟩ := advance_wf hwf0
    rw [hadv] at h
    dsimp only at h
    obtain ⟨after, st2, hws, hwf2, w1, w2, w3, w4, w5, w6⟩ := whitespace_spec hwf1
    rw [hws] at h
    dsimp only at h
    rcases hr : recur none st2 with ⟨rr, st3⟩
    rw [hr] at h
    cases rr with
    | error e2 => dsimp only at h; injection h with h1 h2; exact Except.noConfusion h1
    | ok object =>
        dsimp only at h
        injection h with h1 h2
        injection h1 with h1
        subst h1
        obtain ⟨hwf3, hchain⟩ := hrec none st2 object st3 hwf2 trivial hr
        obtain ⟨i1, i2, i3, i4⟩ := ite_errors_frame
          (is_valid_assign_target object = true) st3
          (st3.errors ++ [invalidPrefixTargetDiag st0.curTok.tokenType
            st0.curTok.lexeme.start object])
        rw [h2] at i1 i2
        refine ⟨wf_of_eq i1 i2 hwf3, ?_⟩
        simp only [leafTriples]
        have h0 := hwf0.1
        refine ⟨rfl, r2, rfl, by dsimp only; omega, rfl, w3, ?_⟩
        rw [i1, w2]
        exact hchain
  · split at h
    · -- fixed unary-operator branch
      rename_i hnup hun
      obtain ⟨st1, hadv, hwf1, a1, a2, a3, a4⟩ := advance_wf hwf0
      rw [hadv] at h
      dsimp only at h
      obtain ⟨after, st2, hws, hwf2, w1, w2, w3, w4, w5, w6⟩ := whitespace_spec hwf1
      rw [hws] at h
      dsimp only at h
      rcases hr : recur none st2 with ⟨rr, st3⟩
      rw [hr] at h
      cases rr with
      | error e2 => dsimp only at h; injection h with h1 h2; exact Except.noConfusion h1
      | ok object =>
          dsimp only at h
          injection h with h1 h2
          injection h1 with h1
          subst h1
          obtain ⟨hwf3, hchain⟩ := hrec none st2 object st3 hwf2 trivial hr
          obtain ⟨i1, i2, i3, i4⟩ := deleteCheck_frame st0.curTok.tokenType object st3
          rw [h2] at i1 i2
          refine ⟨wf_of_eq i1 i2 hwf3, ?_⟩
          simp only [leafTriples]
          have h0 := hwf0.1
          refine ⟨rfl, r2, rfl, by dsimp only; omega, rfl, w3, ?_⟩
          rw [i1, w2]
          exact hchain
    · -- candidate operand plus bounded postfix lookahead
      rename_i hnup hnun
      rcases hlhs : parse_lhs_expr (some lw) st0 with ⟨rl, st1⟩
      rw [hlhs] at h
      cases rl with
      | error e2 => dsimp only at h; injection h with h1 h2; exact Except.noConfusion h1
      | ok object =>
          dsimp only at h
          obtain ⟨hwf1, hchain, hsp, hno, f1, f2, f3⟩ := parse_lhs_spec hwf0 r2 r3 hlhs
          split at h
          · -- current token is already the update operator: no lookahead
            rename_i hup1
            have hlb := isUpdateOp_not_linebreak hup1
            split at h
            · rename_i hlbt
              rw [hlb] at hlbt
              exact Bool.noConfusion hlbt
            · exact postfixConsume_spec hwf1 hchain h
          · -- lookahead over the raw token stream
            rename_i hup1
            rcases hpk : peekLoop st1 (st1.curTok.tokenType == TokenType.Linebreak)
              with ⟨rp, st2⟩
            rw [hpk] at h
            obtain ⟨p1, p2, p3, p4⟩ := peekLoop_frame hpk
            cases rp with
            | error e2 =>
                dsimp only at h; injection h with h1 h2; exact Except.noConfusion h1
            | ok p =>
                rcases p with ⟨next, hadLb⟩
                dsimp only at h
                have hwf2 : Parser.wf (lexerReset st2) := wf_of_eq p1 p2 hwf1
                have hcur : (lexerReset st2).curTok = st1.curTok := p1
                split at h
                · -- lookahead did not find an update operator: return the operand
                  injection h with h1 h2
                  injection h1 with h1
                  subst h1
                  rw [← h2, hcur]
                  exact ⟨hwf2, hchain⟩
                · split at h
                  · -- linebreak observed: return the operand
                    injection h with h1 h2
                    injection h1 with h1
                    subst h1
                    rw [← h2, hcur]
                    exact ⟨hwf2, hchain⟩
                  · -- consume the postfix operator
                    rw [← hcur] at hchain
                    exact postfixConsume_spec hwf2 hchain h

theorem parse_unary_expr_spec : ∀ fuel, UnarySpec (parse_unary_expr fuel) := by
  intro fuel
  induction fuel with
  | zero =>
      intro l st e st' hwf hl h
      rw [parse_unary_expr] at h
      injection h with h1 h2
      exact Except.noConfusion h1
  | succ n ih => exact parse_unary_step_spec ih

/-! ### The peek-cursor restoration specification (claim C1) -/

theorem parse_unary_step_peek {recur : Option Span → Parser → PR Expr}
    (hrec : PeekRestored recur) : PeekRestored (parse_unary_step recur) := by
  intro l st e st' hp h
  unfold parse_unary_step at h
  rcases hres : resolveLeading l st with ⟨rl, st0⟩
  rw [hres] at h
  obtain ⟨q1, q2, q3⟩ := resolveLeading_frame hres
  cases rl with
  | error e2 => dsimp only at h; injection h with h1 h2; exact Except.noConfusion h1
  | ok lw =>
      dsimp only at h
      have hp0 : st0.peekIdx = 0 := by rw [q1, hp]
      split at h
      · -- prefix update branch
        rcases hadv : advance_lexer st0 with ⟨ra, st1⟩
        rw [hadv] at h
        obtain ⟨a1, a2, a3⟩ := advance_frame hadv
        cases ra with
        | error e2 => dsimp only at h; injection h with h1 h2; exact Except.noConfusion h1
        | ok u =>
            dsimp only at h
            rcases hws : whitespace false st1 with ⟨rw1, st2⟩
            rw [hws] at h
            obtain ⟨b1, b2, b3⟩ := whitespace_frame hws
            cases rw1 with
            | error e2 =>
                dsimp only at h; injection h with h1 h2; exact Except.noConfusion h1
            | ok after =>
                dsimp only at h
                rcases hr : recur none st2 with ⟨rr, st3⟩
                rw [hr] at h
                cases rr with
                | error e2 =>
                    dsimp only at h; injection h with h1 h2; exact Except.noConfusion h1
                | ok object =>
                    dsimp only at h
                    injection h with h1 h2
                    have hp3 : st3.peekIdx = 0 :=
                      hrec none st2 object st3 (by rw [b1, a1, hp0]) hr
                    obtain ⟨i1, i2, i3, i4⟩ := ite_errors_frame
                      (is_valid_assign_target object = true) st3
                      (st3.errors ++ [invalidPrefixTargetDiag st0.curTok.tokenType
                        st0.curTok.lexeme.start object])
                    rw [h2] at i3
                    rw [i3, hp3]
      · split at h
        · -- fixed unary-operator branch
          rcases hadv : advance_lexer st0 with ⟨ra, st1⟩
          rw [hadv] at h
          obtain ⟨a1, a2, a3⟩ := advance_frame hadv
          cases ra with
          | error e2 =>
              dsimp only at h; injection h with h1 h2; exact Except.noConfusion h1
          | ok u =>
              dsimp only at h
              rcases hws : whitespace false st1 with ⟨rw1, st2⟩
              rw [hws] at h
              obtain ⟨b1, b2, b3⟩ := whitespace_frame hws
              cases rw1 with
              | error e2 =>
                  dsimp only at h; injection h with h1 h2; exact Except.noConfusion h1
              | ok after =>
                  dsimp only at h
                  rcases hr : recur none st2 with ⟨rr, st3⟩
                  rw [hr] at h
                  cases rr with
                  | error e2 =>
                      dsimp only at h; injection h with h1 h2; exact Except.noConfusion h1
                  | ok object =>
                      dsimp only at h
                      injection h with h1 h2
                      have hp3 : st3.peekIdx = 0 :=
                        hrec none st2 object st3 (by rw [b1, a1, hp0]) hr
                      obtain ⟨i1, i2, i3, i4⟩ := deleteCheck_frame
                        st0.curTok.tokenType object st3
                      rw [h2] at i3
                      rw [i3, hp3]
        · -- default branch: operand plus lookahead
          rcases hlhs : parse_lhs_expr (some lw) st0 with ⟨rl1, st1⟩
          rw [hlhs] at h
          obtain ⟨g1, g2, g3⟩ := parse_lhs_frame hlhs
          have hp1 : st1.peekIdx = 0 := by rw [g1, hp0]
          cases rl1 with
          | error e2 =>
              dsimp only at h; injection h with h1 h2; exact Except.noConfusion h1
          | ok object =>
              dsimp only at h
              split at h
              · -- current token is the operator already
                split at h
                · injection h with h1 h2; rw [← h2]; exact hp1
                · obtain ⟨k1, k2⟩ := postfixConsume_frame h
                  rw [k1, hp1]
              · rcases hpk : peekLoop st1 (st1.curTok.tokenType == TokenType.Linebreak)
                  with ⟨rp, st2⟩
                rw [hpk] at h
                cases rp with
                | error e2 =>
                    dsimp only at h; injection h with h1 h2; exact Except.noConfusion h1
                | ok p =>
                    rcases p with ⟨next, hadLb⟩
                    dsimp only at h
                    split at h
                    · injection h with h1 h2; rw [← h2]; rfl
                    · split at h
                      · injection h with h1 h2; rw [← h2]; rfl
                      · obtain ⟨k1, k2⟩ := postfixConsume_frame h
                        rw [k1]
                        rfl

theorem parse_unary_expr_peek : ∀ fuel, PeekRestored (parse_unary_expr fuel) := by
  intro fuel
  induction fuel with
  | zero =>
      intro l st e st' hp h
      rw [parse_unary_expr] at h
      injection h with h1 h2
      exact Except.noConfusion h1
  | succ n ih => exact parse_unary_step_peek ih

/-! ### Claim theorems -/

/-- C1 (amended): on every *successful* return of `parse_unary_expr`, a call
entered with no outstanding peek leaves the lexer's speculative peek cursor
restored (zero).  The claim's further assertion — that the cursor is restored
even when peeking the next raw token errors mid-peek — is refuted by
`peek_cursor_not_restored_on_lex_error`: on that path `self.peek_lexer()?`
propagates the error past the `self.lexer.reset()` call. -/
theorem peek_cursor_restored_on_success (fuel : Nat) (l : Option Span)
    (st : Parser) (e : Expr) (st' : Parser) (hp : st.peekIdx = 0)
    (h : parse_unary_expr fuel l st = (Except.ok e, st')) :
    st'.peekIdx = 0 :=
  parse_unary_expr_peek fuel l st e st' hp h

/-- C1 witness: a complete successful parse (the `"--foo \n++5"` stream, whose
lookahead both peeks and resets) ends with the peek cursor restored. -/
theorem peek_cursor_restored_on_success_witness :
    stTwo.peekIdx = 0 ∧ (parse_unary_expr 9 none stTwo).2.peekIdx = 0 :=
  ⟨rfl,
    peek_cursor_restored_on_success 9 none stTwo
      (Expr.Update ⟨0, 5⟩ true
        (Expr.Identifier ⟨⟨2, 5⟩, ⟨⟨2, 2⟩, ⟨5, 6⟩⟩⟩)
        TokenType.Decrement ⟨⟨0, 0⟩, ⟨2, 2⟩⟩)
      ⟨⟨TokenType.Linebreak, ⟨6, 7⟩⟩,
        [RawItem.tok ⟨TokenType.Increment, ⟨7, 9⟩⟩,
         RawItem.tok ⟨TokenType.Number, ⟨9, 10⟩⟩], 0, [], false⟩
      rfl rfl⟩

/-- C1 counterexample: the claim as stated is false — when a lexical error
occurs mid-peek (stream `identifier, linebreak, whitespace, malformed token`),
`parse_unary_expr` returns the error with the peek cursor left advanced
(`peekIdx = 1`), not restored to the `0` it started from. -/
theorem peek_cursor_not_restored_on_lex_error :
    stPeekErr.peekIdx = 0 ∧
    (parse_unary_expr 9 none stPeekErr).1 = Except.error lexerDiag ∧
    (parse_unary_expr 9 none stPeekErr).2.peekIdx = 1 :=
  ⟨rfl, rfl, rfl⟩

/-- C2: when, after the candidate operand is parsed, the lookahead finds a
non-update token or observes a linebreak, `parse_unary_expr` returns the
operand unchanged, consumes nothing past it (current token and remaining
stream are exactly as the operand parse left them, so the candidate operator
is still un-consumed), pushes no diagnostic, and re-running the lookahead from
the returned state still finds the same candidate token. -/
theorem postfix_suppressed_returns_operand (n : Nat) (lw : Span) (st : Parser)
    (obj : Expr) (st1 : Parser) (next : Option TokenType) (hadLb : Bool)
    (st2 : Parser)
    (hp : st.peekIdx = 0)
    (h1 : isUpdateOp st.curTok.tokenType = false)
    (h2 : isUnaryOp st.curTok.tokenType = false)
    (hlhs : parse_lhs_expr (some lw) st = (Except.ok obj, st1))
    (h3 : isUpdateOp st1.curTok.tokenType = false)
    (hpk : peekLoop st1 (st1.curTok.tokenType == TokenType.Linebreak) =
      (Except.ok (next, hadLb), st2))
    (hsup : (next ≠ some TokenType.Increment ∧ next ≠ some TokenType.Decrement) ∨
      hadLb = true) :
    parse_unary_expr (n + 1) (some lw) st = (Except.ok obj, lexerReset st2) ∧
    (lexerReset st2).curTok = st1.curTok ∧
    (lexerReset st2).items = st1.items ∧
    (lexerReset st2).errors = st1.errors ∧
    (peekLoop (lexerReset st2)
      ((lexerReset st2).curTok.tokenType == TokenType.Linebreak)).1 =
      Except.ok (next, hadLb) := by
  obtain ⟨p1, p2, p3, p4⟩ := peekLoop_frame hpk
  obtain ⟨g1, g2, g3⟩ := parse_lhs_frame hlhs
  have hp1 : st1.peekIdx = 0 := by rw [g1, hp]
  have hmain : parse_unary_expr (n + 1) (some lw) st = (Except.ok obj, lexerReset st2) := by
    rw [parse_unary_expr]
    unfold parse_unary_step
    dsimp only [resolveLeading]
    rw [h1, h2]
    simp only [Bool.false_eq_true, if_false]
    rw [hlhs]
    dsimp only
    rw [h3]
    simp only [Bool.false_eq_true, if_false]
    rw [hpk]
    dsimp only
    rcases hsup with ⟨hn1, hn2⟩ | hlbt
    · have hc : (next != some TokenType.Increment &&
          next != some TokenType.Decrement) = true := by
        simp [hn1, hn2]
      rw [hc]
      rw [if_pos rfl]
    · by_cases hc : (next != some TokenType.Increment &&
          next != some TokenType.Decrement) = true
      · rw [hc, if_pos rfl]
      · rw [if_neg hc, hlbt, if_pos rfl]
  refine ⟨hmain, p1, p2, by rw [lexerReset]; exact p3, ?_⟩
  unfold peekLoop at hpk ⊢
  injection hpk with hk1 hk2
  rw [hp1, List.drop_zero] at hk1
  show (peekAux ((lexerReset st2).items.drop 0)
    ((lexerReset st2).curTok.tokenType == TokenType.Linebreak)).1 =
    Except.ok (next, hadLb)
  rw [List.drop_zero]
  show (peekAux st2.items (st2.curTok.tokenType == TokenType.Linebreak)).1 =
    Except.ok (next, hadLb)
  rw [p1, p2]
  exact hk1

/-- C2 witness: for the `"mk \n++"` stream (linebreak between operand and
`++`), the parse returns the bare identifier, the `++` token is still in the
un-consumed stream, and no diagnostic is pushed. -/
theorem postfix_suppressed_returns_operand_witness :
    isUpdateOp stMkLb.curTok.tokenType = false ∧
    parse_unary_expr 9 (some ⟨0, 0⟩) stMkLb =
      (Except.ok (Expr.Identifier ⟨⟨0, 2⟩, ⟨⟨0, 0⟩, ⟨2, 3⟩⟩⟩),
       ⟨⟨TokenType.Linebreak, ⟨3, 4⟩⟩,
        [RawItem.tok ⟨TokenType.Increment, ⟨4, 6⟩⟩], 0, [], false⟩) :=
  ⟨rfl,
    (postfix_suppressed_returns_operand 8 ⟨0, 0⟩ stMkLb
      (Expr.Identifier ⟨⟨0, 2⟩, ⟨⟨0, 0⟩, ⟨2, 3⟩⟩⟩)
      ⟨⟨TokenType.Linebreak, ⟨3, 4⟩⟩,
        [RawItem.tok ⟨TokenType.Increment, ⟨4, 6⟩⟩], 0, [], false⟩
      (some TokenType.Increment) true
      ⟨⟨TokenType.Linebreak, ⟨3, 4⟩⟩,
        [RawItem.tok ⟨TokenType.Increment, ⟨4, 6⟩⟩], 1, [], false⟩
      rfl rfl rfl rfl rfl rfl (Or.inr rfl)).1⟩

/-- C9: when the postfix operator is suppressed — i.e. the default branch of
`parse_unary_expr` succeeds but does not build an `Update` node — the
diagnostic list is left unchanged: no assignment-target validation runs and no
invalid-target diagnostic is pushed, whatever the operand was. -/
theorem suppressed_postfix_no_diagnostics (n : Nat) (lw : Span) (st : Parser)
    (e : Expr) (st' : Parser)
    (h1 : isUpdateOp st.curTok.tokenType = false)
    (h2 : isUnaryOp st.curTok.tokenType = false)
    (h : parse_unary_expr (n + 1) (some lw) st = (Except.ok e, st'))
    (hne : e.isUpdate = false) :
    st'.errors = st.errors := by
  rw [parse_unary_expr] at h
  unfold parse_unary_step at h
  dsimp only [resolveLeading] at h
  rw [h1, h2] at h
  simp only [Bool.false_eq_true, if_false] at h
  rcases hlhs : parse_lhs_expr (some lw) st with ⟨rl, st1⟩
  rw [hlhs] at h
  obtain ⟨g1, g2, g3⟩ := parse_lhs_frame hlhs
  cases rl with
  | error e2 => dsimp only at h; injection h with hx hy; exact Except.noConfusion hx
  | ok object =>
      dsimp only at h
      split at h
      · -- current token is already the operator
        split at h
        · injection h with hx hy
          rw [← hy, g2]
        · have hsh := postfixConsume_shape h
          rw [hne] at hsh
          exact Bool.noConfusion hsh
      · rcases hpk : peekLoop st1 (st1.curTok.tokenType == TokenType.Linebreak)
          with ⟨rp, st2⟩
        rw [hpk] at h
        obtain ⟨p1, p2, p3, p4⟩ := peekLoop_frame hpk
        cases rp with
        | error e2 =>
            dsimp only at h; injection h with hx hy; exact Except.noConfusion hx
        | ok p =>
            rcases p with ⟨next, hadLb⟩
            dsimp only at h
            split at h
            · injection h with hx hy
              rw [← hy]
              show st2.errors = st.errors
              rw [p3, g2]
            · split at h
              · injection h with hx hy
                rw [← hy]
                show st2.errors = st.errors
                rw [p3, g2]
              · have hsh := postfixConsume_shape h
                rw [hne] at hsh
                exact Bool.noConfusion hsh

/-- C9 witness: the stream `"5"` — a number literal, which is *not* a valid
assignment target — followed by end of input: the lookahead finds no postfix
operator, the bare number is returned and the diagnostic list is untouched. -/
theorem suppressed_postfix_no_diagnostics_witness :
    parse_unary_expr 9 (some ⟨0, 0⟩) stFive =
      (Except.ok (Expr.Number ⟨⟨0, 1⟩, ⟨⟨0, 0⟩, ⟨1, 1⟩⟩⟩),
       ⟨⟨TokenType.EOF, ⟨1, 1⟩⟩, [], 0, [], false⟩) ∧
    is_valid_assign_target (Expr.Number ⟨⟨0, 1⟩, ⟨⟨0, 0⟩, ⟨1, 1⟩⟩⟩) = false ∧
    (⟨⟨TokenType.EOF, ⟨1, 1⟩⟩, [], 0, [], false⟩ : Parser).errors = stFive.errors :=
  ⟨rfl, rfl,
    suppressed_postfix_no_diagnostics 8 ⟨0, 0⟩ stFive
      (Expr.Number ⟨⟨0, 1⟩, ⟨⟨0, 0⟩, ⟨1, 1⟩⟩⟩)
      ⟨⟨TokenType.EOF, ⟨1, 1⟩⟩, [], 0, [], false⟩
      rfl rfl rfl rfl⟩

/-- C3: parsing `"true++"` returns `Ok` with a postfix `Update` node whose
operand is the boolean-literal expression for `true`, and afterwards the
diagnostic list holds exactly one entry — the invalid-assignment-target
diagnostic. -/
theorem true_incr_recovers_with_one_diagnostic :
    parse_unary_expr 9 none stTruePP =
      (Except.ok (Expr.Update ⟨0, 6⟩ false
        (Expr.TrueLit ⟨⟨0, 4⟩, ⟨⟨0, 0⟩, ⟨4, 4⟩⟩⟩)
        TokenType.Increment ⟨⟨4, 4⟩, ⟨6, 6⟩⟩),
       ⟨⟨TokenType.EOF, ⟨6, 6⟩⟩, [], 0,
        [invalidPostfixTargetDiag TokenType.Increment ⟨4, 6⟩
          (Expr.TrueLit ⟨⟨0, 4⟩, ⟨⟨0, 0⟩, ⟨4, 4⟩⟩⟩)], false⟩) ∧
    (parse_unary_expr 9 none stTruePP).2.errors.length = 1 ∧
    (invalidPostfixTargetDiag TokenType.Increment ⟨4, 6⟩
      (Expr.TrueLit ⟨⟨0, 4⟩, ⟨⟨0, 0⟩, ⟨4, 4⟩⟩⟩)).kind =
      ParseDiagnosticType.InvalidTargetExpression :=
  ⟨rfl, rfl, rfl⟩

theorem isUnaryOp_not_update {t : TokenType} (h : isUnaryOp t = true) :
    isUpdateOp t = false := by
  cases t <;> simp_all [isUnaryOp, isUpdateOp]

/-- C4: in the fixed-operator branch of `parse_unary_expr`, the `Unary` node
is always returned, and a diagnostic is pushed if and only if the operator is
`delete`, the operand is an identifier, and the strict-mode flag is set; no
other operator of the set triggers any check. -/
theorem unary_branch_delete_strict_check (n : Nat) (lw : Span) (st : Parser)
    (t : TokenType) (stA : Parser) (aft : Span) (stB : Parser) (obj : Expr)
    (stC : Parser)
    (ht : st.curTok.tokenType = t)
    (hun : isUnaryOp t = true)
    (hadv : advance_lexer st = (Except.ok (), stA))
    (hws : whitespace false stA = (Except.ok aft, stB))
    (hobj : parse_unary_expr n none stB = (Except.ok obj, stC)) :
    parse_unary_expr (n + 1) (some lw) st =
      (Except.ok (Expr.Unary ⟨st.curTok.lexeme.start, obj.span.stop⟩ obj t
        ⟨lw, aft⟩), deleteCheck t obj stC) ∧
    (∀ d, obj = Expr.Identifier d → stC.strict = true → t = TokenType.Delete →
      (deleteCheck t obj stC).errors = stC.errors ++ [identifierDeletionDiag d]) ∧
    ((stC.strict = false ∨ t ≠ TokenType.Delete ∨ obj.identData = none) →
      (deleteCheck t obj stC).errors = stC.errors) := by
  refine ⟨?_, ?_, ?_⟩
  · rw [parse_unary_expr]
    unfold parse_unary_step
    dsimp only [resolveLeading]
    rw [ht, isUnaryOp_not_update hun]
    simp only [Bool.false_eq_true, if_false]
    rw [hun, if_pos rfl, hadv]
    dsimp only
    rw [hws]
    dsimp only
    rw [hobj]
  · intro d hd hstrict ht2
    subst hd
    subst ht2
    simp [deleteCheck, hstrict]
  · intro hdisj
    rcases hdisj with hs | hne | hid
    · simp [deleteCheck, hs]
    · have hb : (t == TokenType.Delete) = false := by
        simp [hne]
      simp [deleteCheck, hb]
    · unfold deleteCheck
      split
      · cases obj <;> simp_all [Expr.identData]
      · rfl

/-- C4 witness: `"delete x"` in strict mode — the recursive operand parse
yields the identifier, and the branch appends exactly the
identifier-deletion diagnostic while still returning the `Unary` node. -/
theorem unary_branch_delete_strict_check_witness :
    stDel.curTok.tokenType = TokenType.Delete ∧
    isUnaryOp TokenType.Delete = true ∧
    stDel.strict = true ∧
    advance_lexer stDel = (Except.ok (),
      ⟨⟨TokenType.Whitespace, ⟨6, 7⟩⟩,
       [RawItem.tok ⟨TokenType.Ident, ⟨7, 8⟩⟩], 0, [], true⟩) ∧
    parse_unary_expr 8 (some ⟨0, 0⟩) stDel =
      (Except.ok (Expr.Unary ⟨0, 8⟩
        (Expr.Identifier ⟨⟨7, 8⟩, ⟨⟨7, 7⟩, ⟨8, 8⟩⟩⟩) TokenType.Delete
        ⟨⟨0, 0⟩, ⟨6, 7⟩⟩),
       deleteCheck TokenType.Delete
         (Expr.Identifier ⟨⟨7, 8⟩, ⟨⟨7, 7⟩, ⟨8, 8⟩⟩⟩)
         ⟨⟨TokenType.EOF, ⟨8, 8⟩⟩, [], 0, [], true⟩) ∧
    (deleteCheck TokenType.Delete
      (Expr.Identifier ⟨⟨7, 8⟩, ⟨⟨7, 7⟩, ⟨8, 8⟩⟩⟩)
      (⟨⟨TokenType.EOF, ⟨8, 8⟩⟩, [], 0, [], true⟩ : Parser)).errors =
      ([] : List ParserDiagnostic) ++
        [identifierDeletionDiag ⟨⟨7, 8⟩, ⟨⟨7, 7⟩, ⟨8, 8⟩⟩⟩] :=
  ⟨rfl, rfl, rfl, rfl,
    (unary_branch_delete_strict_check 7 ⟨0, 0⟩ stDel TokenType.Delete
      ⟨⟨TokenType.Whitespace, ⟨6, 7⟩⟩,
       [RawItem.tok ⟨TokenType.Ident, ⟨7, 8⟩⟩], 0, [], true⟩
      ⟨6, 7⟩
      ⟨⟨TokenType.Ident, ⟨7, 8⟩⟩, [], 0, [], true⟩
      (Expr.Identifier ⟨⟨7, 8⟩, ⟨⟨7, 7⟩, ⟨8, 8⟩⟩⟩)
      ⟨⟨TokenType.EOF, ⟨8, 8⟩⟩, [], 0, [], true⟩
      rfl rfl rfl rfl rfl).1,
    (unary_branch_delete_strict_check 7 ⟨0, 0⟩ stDel TokenType.Delete
      ⟨⟨TokenType.Whitespace, ⟨6, 7⟩⟩,
       [RawItem.tok ⟨TokenType.Ident, ⟨7, 8⟩⟩], 0, [], true⟩
      ⟨6, 7⟩
      ⟨⟨TokenType.Ident, ⟨7, 8⟩⟩, [], 0, [], true⟩
      (Expr.Identifier ⟨⟨7, 8⟩, ⟨⟨7, 7⟩, ⟨8, 8⟩⟩⟩)
      ⟨⟨TokenType.EOF, ⟨8, 8⟩⟩, [], 0, [], true⟩
      rfl rfl rfl rfl rfl).2.1
      ⟨⟨7, 8⟩, ⟨⟨7, 7⟩, ⟨8, 8⟩⟩⟩ rfl rfl rfl⟩

/-- C6: for every expression successfully returned by `parse_unary_expr` on a
well-formed token stream, the leaf triples (before-whitespace span, token
span, after-whitespace span), in source order, tile the parsed range
contiguously — in particular `before.end = token.start` and
`after.start = token.end` for every leaf — and concatenating the text they
cover reproduces exactly the slice of the source buffer covered by the
parse. -/
theorem leaf_whitespace_reconstruction (src : List Char) (fuel : Nat)
    (st : Parser) (e : Expr) (st' : Parser) (hwf : Parser.wf st)
    (h : parse_unary_expr fuel none st = (Except.ok e, st')) :
    tripleChain st.curTok.lexeme.start (leafTriples e) st'.curTok.lexeme.start ∧
    reconstructTriples src (leafTriples e) =
      sliceStr src st.curTok.lexeme.start st'.curTok.lexeme.start := by
  obtain ⟨hwf', hchain⟩ := parse_unary_expr_spec fuel none st e st' hwf trivial h
  exact ⟨hchain, reconstruct_eq src hchain⟩

/-- C6 witness: the `"true++"` parse — its leaves tile `[0, 6)` and
re-concatenating the slices reproduces the whole buffer `"true++"`. -/
theorem leaf_whitespace_reconstruction_witness :
    Parser.wf stTruePP ∧
    parse_unary_expr 9 none stTruePP =
      (Except.ok (Expr.Update ⟨0, 6⟩ false
        (Expr.TrueLit ⟨⟨0, 4⟩, ⟨⟨0, 0⟩, ⟨4, 4⟩⟩⟩)
        TokenType.Increment ⟨⟨4, 4⟩, ⟨6, 6⟩⟩),
       ⟨⟨TokenType.EOF, ⟨6, 6⟩⟩, [], 0,
        [invalidPostfixTargetDiag TokenType.Increment ⟨4, 6⟩
          (Expr.TrueLit ⟨⟨0, 4⟩, ⟨⟨0, 0⟩, ⟨4, 4⟩⟩⟩)], false⟩) ∧
    tripleChain 0
      (leafTriples (Expr.Update ⟨0, 6⟩ false
        (Expr.TrueLit ⟨⟨0, 4⟩, ⟨⟨0, 0⟩, ⟨4, 4⟩⟩⟩)
        TokenType.Increment ⟨⟨4, 4⟩, ⟨6, 6⟩⟩)) 6 ∧
    reconstructTriples "true++".toList
      (leafTriples (Expr.Update ⟨0, 6⟩ false
        (Expr.TrueLit ⟨⟨0, 4⟩, ⟨⟨0, 0⟩, ⟨4, 4⟩⟩⟩)
        TokenType.Increment ⟨⟨4, 4⟩, ⟨6, 6⟩⟩)) =
      sliceStr "true++".toList 0 6 := by
  have hwf : Parser.wf stTruePP := ⟨by decide, rfl, by decide, trivial⟩
  have h := leaf_whitespace_reconstruction "true++".toList 9 stTruePP
    (Expr.Update ⟨0, 6⟩ false
      (Expr.TrueLit ⟨⟨0, 4⟩, ⟨⟨0, 0⟩, ⟨4, 4⟩⟩⟩)
      TokenType.Increment ⟨⟨4, 4⟩, ⟨6, 6⟩⟩)
    ⟨⟨TokenType.EOF, ⟨6, 6⟩⟩, [], 0,
      [invalidPostfixTargetDiag TokenType.Increment ⟨4, 6⟩
        (Expr.TrueLit ⟨⟨0, 4⟩, ⟨⟨0, 0⟩, ⟨4, 4⟩⟩⟩)], false⟩
    hwf rfl
  exact ⟨hwf, rfl, h.1, h.2⟩

/-- C7: `"++ ++ x"` parses to the full nested prefix `Update` tree; the outer
application's target check sees the inner `Update` node, rejects it (an
`Update` is not a valid assignment target) and pushes exactly one
invalid-target diagnostic, while the nested tree is still returned. -/
theorem chained_prefix_outer_target_diag :
    parse_unary_expr 9 none stChain =
      (Except.ok (Expr.Update ⟨0, 7⟩ true
        (Expr.Update ⟨3, 7⟩ true
          (Expr.Identifier ⟨⟨6, 7⟩, ⟨⟨6, 6⟩, ⟨7, 7⟩⟩⟩)
          TokenType.Increment ⟨⟨3, 3⟩, ⟨5, 6⟩⟩)
        TokenType.Increment ⟨⟨0, 0⟩, ⟨2, 3⟩⟩),
       ⟨⟨TokenType.EOF, ⟨7, 7⟩⟩, [], 0,
        [invalidPrefixTargetDiag TokenType.Increment 0
          (Expr.Update ⟨3, 7⟩ true
            (Expr.Identifier ⟨⟨6, 7⟩, ⟨⟨6, 6⟩, ⟨7, 7⟩⟩⟩)
            TokenType.Increment ⟨⟨3, 3⟩, ⟨5, 6⟩⟩)], false⟩) ∧
    is_valid_assign_target (Expr.Update ⟨3, 7⟩ true
      (Expr.Identifier ⟨⟨6, 7⟩, ⟨⟨6, 6⟩, ⟨7, 7⟩⟩⟩)
      TokenType.Increment ⟨⟨3, 3⟩, ⟨5, 6⟩⟩) = false :=
  ⟨rfl, rfl⟩

/-- C8: two successive top-level `parse_unary_expr` calls on the
`"--foo \n++5"` stream yield, first, a prefix `--` Update over the identifier
spanning `[0, 5)` and, second, a prefix `++` Update over the number literal
spanning `[7, 10)`, with the intervening whitespace accounted to the
whitespace spans. -/
theorem two_sequential_prefix_updates :
    (parse_unary_expr 9 none stTwo).1 =
      Except.ok (Expr.Update ⟨0, 5⟩ true
        (Expr.Identifier ⟨⟨2, 5⟩, ⟨⟨2, 2⟩, ⟨5, 6⟩⟩⟩)
        TokenType.Decrement ⟨⟨0, 0⟩, ⟨2, 2⟩⟩) ∧
    (parse_unary_expr 9 none (parse_unary_expr 9 none stTwo).2).1 =
      Except.ok (Expr.Update ⟨7, 10⟩ true
        (Expr.Number ⟨⟨9, 10⟩, ⟨⟨9, 9⟩, ⟨10, 10⟩⟩⟩)
        TokenType.Increment ⟨⟨6, 7⟩, ⟨9, 9⟩⟩) :=
  ⟨rfl, rfl⟩

/-- C5: `NoExtraSemi` flags an `EMPTY_STMT` whose parent is absent or outside
the allow-list with exactly one diagnostic carrying a primary label on the
node's span, and flags nothing when the parent's kind is in the allow-list. -/
theorem no_extra_semi_allow_list (node : SyntaxNode) (ctx : RuleCtx) :
    (node.kind = SyntaxKind.EMPTY_STMT →
      (node.parent = none ∨
        ∃ p, node.parent = some p ∧ ALLOWED.contains p.kind = false) →
      (check_node node ctx).2.diagnostics =
        ctx.diagnostics ++ [unnecessarySemicolonDiag node]) ∧
    (node.kind = SyntaxKind.EMPTY_STMT →
      ∀ p, node.parent = some p → ALLOWED.contains p.kind = true →
      (check_node node ctx).2 = ctx) := by
  constructor
  · intro hk hpar
    rcases hpar with hnone | ⟨p, hp, hal⟩
    · simp [check_node, hk, hnone, RuleCtx.add_err]
    · have hmem : p.kind ∉ ALLOWED := by simpa using hal
      simp [check_node, hk, hp, hmem, RuleCtx.add_err]
  · intro hk p hp hal
    have hmem : p.kind ∈ ALLOWED := by simpa using hal
    simp [check_node, hk, hp, hmem]

/-- C5 witness: an empty statement inside a block yields one diagnostic with
a primary label on its span; an empty statement that is the direct body of a
`for(;;)` loop yields none. -/
theorem no_extra_semi_allow_list_witness :
    nodeEmptyInBlock.kind = SyntaxKind.EMPTY_STMT ∧
    (check_node nodeEmptyInBlock ctx0).2.diagnostics =
      [unnecessarySemicolonDiag nodeEmptyInBlock] ∧
    (unnecessarySemicolonDiag nodeEmptyInBlock).primary.span = ⟨11, 12⟩ ∧
    nodeEmptyInFor.kind = SyntaxKind.EMPTY_STMT ∧
    (check_node nodeEmptyInFor ctx0).2 = ctx0 := by
  refine ⟨rfl, ?_, rfl, rfl, ?_⟩
  · have h := (no_extra_semi_allow_list nodeEmptyInBlock ctx0).1 rfl
      (Or.inr ⟨SyntaxNode.node SyntaxKind.BLOCK_STMT ⟨9, 14⟩ none, rfl, rfl⟩)
    exact h
  · exact (no_extra_semi_allow_list nodeEmptyInFor ctx0).2 rfl
      (SyntaxNode.node SyntaxKind.FOR_STMT ⟨0, 8⟩ none) rfl rfl

/-- C10: `check_node` returns `none` for every node; for every node that is
not an `EMPTY_STMT` the context is left unchanged; per invocation at most one
diagnostic is appended (and only appended). -/
theorem check_node_none_and_frame (node : SyntaxNode) (ctx : RuleCtx) :
    (check_node node ctx).1 = none ∧
    (node.kind ≠ SyntaxKind.EMPTY_STMT → (check_node node ctx).2 = ctx) ∧
    ∃ tail, (check_node node ctx).2.diagnostics = ctx.diagnostics ++ tail ∧
      tail.length ≤ 1 := by
  refine ⟨?_, ?_, ?_⟩
  · unfold check_node
    split <;> rfl
  · intro hk
    have hb : (node.kind == SyntaxKind.EMPTY_STMT) = false := by simp [hk]
    simp [check_node, hb]
  · unfold check_node
    split
    · exact ⟨[unnecessarySemicolonDiag node], rfl, by simp⟩
    · exact ⟨[], by simp, by simp⟩

/-- C10 witness: on a `FOR_STMT` node the rule returns `none` and the context
is unchanged. -/
theorem check_node_none_and_frame_witness :
    nodeForStmt.kind ≠ SyntaxKind.EMPTY_STMT ∧
    (check_node nodeForStmt ctx0).1 = none ∧
    (check_node nodeForStmt ctx0).2 = ctx0 := by
  refine ⟨by decide, (check_node_none_and_frame nodeForStmt ctx0).1, ?_⟩
  exact (check_node_none_and_frame nodeForStmt ctx0).2.1 (by decide)

end RSLint
